import Mathlib

/-!
Shallow embedding of `3d_classification/torch/densenet_evaluation_dict.py`:
the manifest parsing, label derivation, validation-split construction, and the
evaluation loop (accumulator, per-batch bookkeeping, CSV rows, final metric).

External collaborators (NIfTI loading, the DenseNet forward pass, the CSV
writer's file handling) are abstracted: after `model.eval()` and
`torch.no_grad()` the forward pass is a pure function, modelled as
`net : String → Nat` from an image path to the arg-max class index; the writer
is modelled by the trace of `save_batch` / `finalize` events the driver emits.
-/

namespace DensenetEval

/-- Structured values as produced by `json.load`: the manifest `datalist`. -/
inductive JValue where
  | str (s : String)
  | num (n : Int)
  | boolean (b : Bool)
  | null
  | arr (elems : List JValue)
  | obj (fields : List (String × JValue))

/-- Python subscript `d[k]` on a JSON object: `none` models the `KeyError`
raised when the key is missing and the `TypeError` raised when `d` is not a
dict. -/
def jget : JValue → String → Option JValue
  | .obj fields, k => fields.lookup k
  | _, _ => none

/-- Python subscript `d[i]` on a JSON array: `none` models the `IndexError`
raised when the index is out of range and the `TypeError` when `d` is not a
list. -/
def jindex : JValue → Nat → Option JValue
  | .arr elems, i => elems[i]?
  | _, _ => none

/-- String coercion: `none` models the `TypeError` raised when a non-string is
passed where Python requires `str` (e.g. `os.path.join`). -/
def asString : JValue → Option String
  | .str s => some s
  | _ => none

/-- `os.sep.join(["workspace", "data", "medical", "ixi", "IXI-T1"])` (line 33). -/
def dirpath : String := "workspace/data/medical/ixi/IXI-T1"

/-- `os.path.join` for the relative url paths of the manifest. -/
def pathJoin (d u : String) : String := d ++ "/" ++ u

/-- The selected validation indices: `range(21, 30)` (lines 34 and 36). -/
def selIdx : List Nat := List.range' 21 9

/-- The access chain `datalist["entry"][i]["resource"]["content"]["url"]`
(line 34), then consumed by `os.path.join`, which requires a string. -/
def getUrl (d : JValue) (i : Nat) : Option String :=
  (jget d "entry").bind fun es =>
    (jindex es i).bind fun e =>
      (jget e "resource").bind fun r =>
        (jget r "content").bind fun c =>
          (jget c "url").bind asString

/-- The access chain `datalist["entry"][i]["resource"]["note"]["text"]`
(line 36). The value is only compared with `== "man"`, which is defined for
every Python value, so no string coercion is applied here. -/
def getText (d : JValue) (i : Nat) : Option JValue :=
  (jget d "entry").bind fun es =>
    (jindex es i).bind fun e =>
      (jget e "resource").bind fun r =>
        (jget r "note").bind fun n => jget n "text"

/-- The label mapping `0 if ... == "man" else 1` (line 36): Python `==`
against the string literal is true exactly for the equal string value. -/
def labelOf (t : JValue) : Nat :=
  match t with
  | .str s => if s = "man" then 0 else 1
  | _ => 1

/-- One element of `val_files`: `{"img": img, "label": label}` (line 39). -/
structure Sample where
  img : String
  label : Nat
deriving DecidableEq

/-- The (image path, label) pair built for selected index `i` (lines 34–39). -/
def sampleAt (d : JValue) (i : Nat) : Option Sample :=
  (getUrl d i).bind fun u =>
    (getText d i).map fun t => ⟨pathJoin dirpath u, labelOf t⟩

/-- Builds the samples for a list of indices; `none` as soon as any access
chain fails, modelling the exception that aborts the comprehension. -/
def buildSamples (d : JValue) : List Nat → Option (List Sample)
  | [] => some []
  | i :: is =>
    match sampleAt d i, buildSamples d is with
    | some s, some rest => some (s :: rest)
    | _, _ => none

/-- The state of the manifest file handed to `open` + `json.load` (lines
31–32): absent, present but not valid JSON, or parsed structured data. -/
inductive ManifestInput where
  | missing
  | notJson
  | json (v : JValue)

/-- The spec's `ManifestError` taxonomy for the exceptions the parsing phase
raises: `FileNotFoundError` from `open`, `JSONDecodeError` from `json.load`,
and `KeyError`/`IndexError`/`TypeError` from the field access chains. -/
inductive ManifestError where
  | fileMissing
  | invalidData
  | fieldAbsent
deriving DecidableEq

/-- Lines 31–39: parse the manifest and construct the validation samples. -/
def parseManifest : ManifestInput → Except ManifestError (List Sample)
  | .missing => .error .fileMissing
  | .notJson => .error .invalidData
  | .json d =>
    match buildSamples d selIdx with
    | none => .error .fieldAbsent
    | some s => .ok s

/-- The accumulator of the evaluation loop: `num_correct` (a float in the
source, but it only ever holds the integral sums of boolean tensors) and
`metric_count` (lines 64–65). -/
structure Accumulator where
  correct : Nat
  total : Nat
deriving DecidableEq

/-- Splitting of the dataset into consecutive batches of size `b` (last batch
possibly smaller), as the `DataLoader` with `batch_size=2` and no shuffling
does (line 55). Fueled so that it computes; `chunks` supplies fuel
`l.length`, which suffices whenever `0 < b`. -/
def chunksGo {α : Type} (b : Nat) : Nat → List α → List (List α)
  | _, [] => []
  | 0, l => [l]
  | fuel + 1, x :: xs => (x :: xs).take b :: chunksGo b fuel ((x :: xs).drop b)

/-- The batches the `DataLoader` yields, in dataset order. -/
def chunks {α : Type} (b : Nat) (l : List α) : List (List α) :=
  chunksGo b l.length l

/-- One iteration of the evaluation loop body (lines 67–71):
`val_outputs = model(val_images).argmax(dim=1)`,
`value = torch.eq(val_outputs, val_labels)`,
`metric_count += len(value)`, `num_correct += value.sum().item()`. -/
def evalBatch (net : String → Nat) (a : Accumulator) (batch : List Sample) :
    Accumulator :=
  let outputs := batch.map fun s => net s.img
  let labels := batch.map Sample.label
  let value := List.zipWith (fun o l => o == l) outputs labels
  { correct := a.correct + value.count true, total := a.total + value.length }

/-- The whole evaluation loop (lines 66–71), accumulator threading only. -/
def evalLoop (net : String → Nat) (batches : List (List Sample))
    (a : Accumulator) : Accumulator :=
  batches.foldl (evalBatch net) a

/-- `metric = num_correct / metric_count` (line 72), in exact rationals. -/
def accuracy (a : Accumulator) : ℚ := (a.correct : ℚ) / (a.total : ℚ)

/-- The rows `saver.save_batch(val_outputs, val_data["img_meta_dict"])` hands
to the CSV writer for one batch: row identity is the sample's source path from
the metadata, the value is the predicted class index (line 71). -/
def rowsOf (net : String → Nat) (batch : List Sample) : List (String × Nat) :=
  batch.map fun s => (s.img, net s.img)

/-- Observable actions of the driver, in program order: a `save_batch` call,
the final `print("evaluation metric:", metric)`, and `saver.finalize()`. -/
inductive Event where
  | write (rows : List (String × Nat))
  | printMetric (m : ℚ)
  | finalize
deriving DecidableEq

/-- Whether an event is a `save_batch` write. -/
def Event.isWrite : Event → Bool
  | .write _ => true
  | _ => false

/-- Whether an event is the final metric print. -/
def Event.isPrint : Event → Bool
  | .printMetric _ => true
  | _ => false

/-- Whether an event is the `saver.finalize()` call. -/
def Event.isFinalize : Event → Bool
  | .finalize => true
  | _ => false

/-- All rows handed to the writer over a trace, in emission order. -/
def flushedRows (evs : List Event) : List (String × Nat) :=
  (evs.map fun e =>
    match e with
    | .write rows => rows
    | _ => []).flatten

/-- Fatal errors of the evaluation phase: an exception raised while loading,
running or saving some batch, and the `ZeroDivisionError` from
`num_correct / metric_count` when `metric_count == 0`. -/
inductive RunError where
  | batchFailure
  | divisionByZero
deriving DecidableEq

/-- The evaluation loop with its observable trace. `fails` abstracts the
environment: whether processing a given batch raises (image read error,
forward-pass error, write error). The source has no try/finally, so a raised
exception aborts the loop at once; events already emitted stay emitted. -/
def runLoop (net : String → Nat) (fails : List Sample → Bool) :
    List (List Sample) → Accumulator → List Event × Option Accumulator
  | [], a => ([], some a)
  | b :: bs, a =>
    if fails b then ([], none)
    else
      let res := runLoop net fails bs (evalBatch net a b)
      (Event.write (rowsOf net b) :: res.1, res.2)

/-- Lines 62–74 in source order: batch the samples (`batch_size=2`), run the
loop, then `metric = num_correct / metric_count`, then the print, then
`saver.finalize()`. A batch failure or a zero division propagates out before
the later statements run. -/
def runDriver (net : String → Nat) (fails : List Sample → Bool)
    (samples : List Sample) : List Event × Except RunError Unit :=
  match runLoop net fails (chunks 2 samples) ⟨0, 0⟩ with
  | (evs, none) => (evs, .error .batchFailure)
  | (evs, some a) =>
    if a.total = 0 then (evs, .error .divisionByZero)
    else (evs ++ [.printMetric (accuracy a), .finalize], .ok ())

/-- Two invocations of the script on the same manifest-derived samples, same
checkpoint-determined network and same environment (line 60–75 executed
twice). -/
def runTwice (net : String → Nat) (fails : List Sample → Bool)
    (samples : List Sample) :
    (List Event × Except RunError Unit) × (List Event × Except RunError Unit) :=
  (runDriver net fails samples, runDriver net fails samples)

/-- A concrete well-formed manifest entry, used to instantiate the theorems:
`{"resource": {"content": {"url": "a.nii"}, "note": {"text": "man"}}}`. -/
def entryJ : JValue :=
  .obj [("resource", .obj [("content", .obj [("url", .str "a.nii")]),
                           ("note", .obj [("text", .str "man")])])]

/-- A concrete manifest with 30 entries: the first 21 are never accessed by
the selected range, the 9 selected ones are well-formed. -/
def manifestJ : JValue :=
  .obj [("entry", .arr (List.replicate 21 .null ++ List.replicate 9 entryJ))]

/-! Basic facts about batching and the accumulator. -/

theorem chunksGo_flatten {α : Type} (b : Nat) (hb : 0 < b) :
    ∀ (fuel : Nat) (l : List α), l.length ≤ fuel →
      (chunksGo b fuel l).flatten = l := by
  intro fuel
  induction fuel with
  | zero =>
    intro l hl
    cases l with
    | nil => rfl
    | cons x xs => simp at hl
  | succ n ih =>
    intro l hl
    cases l with
    | nil => rfl
    | cons x xs =>
      have hdrop : (List.drop b (x :: xs)).length ≤ n := by
        rw [List.length_drop]
        simp only [List.length_cons] at hl ⊢
        omega
      calc (chunksGo b (n + 1) (x :: xs)).flatten
          = List.take b (x :: xs) ++ (chunksGo b n (List.drop b (x :: xs))).flatten := by
            rfl
        _ = List.take b (x :: xs) ++ List.drop b (x :: xs) := by rw [ih _ hdrop]
        _ = x :: xs := List.take_append_drop b (x :: xs)

theorem chunks_flatten {α : Type} (b : Nat) (hb : 0 < b) (l : List α) :
    (chunks b l).flatten = l :=
  chunksGo_flatten b hb l.length l le_rfl

theorem evalBatch_total (net : String → Nat) (a : Accumulator)
    (batch : List Sample) :
    (evalBatch net a batch).total = a.total + batch.length := by
  simp [evalBatch, List.length_zipWith]

theorem evalLoop_total (net : String → Nat) :
    ∀ (batches : List (List Sample)) (a : Accumulator),
      (evalLoop net batches a).total = a.total + (batches.map List.length).sum := by
  intro batches
  induction batches with
  | nil => intro a; simp [evalLoop]
  | cons b bs ih =>
    intro a
    show (evalLoop net bs (evalBatch net a b)).total = _
    rw [ih, evalBatch_total]
    simp [Nat.add_assoc]

/-- C1: after the evaluation loop runs over the batches of a validation split
of `k` samples, `metric_count` equals exactly `k`, for every positive batch
size, whether or not it divides `k` (the last batch may be smaller): no sample
is dropped and none is counted twice. -/
theorem evaluation_total_equals_sample_count (net : String → Nat) (b : Nat)
    (hb : 0 < b) (samples : List Sample) :
    (evalLoop net (chunks b samples) ⟨0, 0⟩).total = samples.length := by
  rw [evalLoop_total, ← List.length_flatten, chunks_flatten b hb]
  simp

/-- C1 witness: batch size 2 over 3 samples (2 does not divide 3) still counts
all 3 samples. -/
theorem evaluation_total_equals_sample_count_witness :
    0 < 2 ∧
    (evalLoop (fun _ => 0)
      (chunks 2 ([⟨"a", 0⟩, ⟨"b", 1⟩, ⟨"c", 0⟩] : List Sample)) ⟨0, 0⟩).total = 3 :=
  ⟨by decide,
    evaluation_total_equals_sample_count (fun _ => 0) 2 (by decide) _⟩

/-- C2: the derived label is 0 exactly when the entry's `note.text` value is
the string `"man"`, and 1 for every other value — other strings (including
`""` and `"woman"`) and non-string/malformed values alike. -/
theorem label_zero_iff_text_is_man (t : JValue) :
    (labelOf t = 0 ↔ t = JValue.str "man") ∧
    (labelOf t = 1 ↔ t ≠ JValue.str "man") := by
  cases t with
  | str s =>
    by_cases h : s = "man" <;> simp [labelOf, h]
  | num n => simp [labelOf]
  | boolean b => simp [labelOf]
  | null => simp [labelOf]
  | arr elems => simp [labelOf]
  | obj fields => simp [labelOf]

theorem evalBatch_correct_le (net : String → Nat) (a : Accumulator)
    (batch : List Sample) :
    (evalBatch net a batch).correct ≤ a.correct + batch.length := by
  have h := List.count_le_length true
    (List.zipWith (fun o l => o == l) (batch.map fun s => net s.img)
      (batch.map Sample.label))
  rw [List.length_zipWith] at h
  simp only [List.length_map, min_self, le_min_iff, inf_idem] at h
  simpa [evalBatch] using Nat.add_le_add_left h a.correct

theorem evalLoop_correct_le_total (net : String → Nat) :
    ∀ (batches : List (List Sample)) (a : Accumulator),
      a.correct ≤ a.total →
      (evalLoop net batches a).correct ≤ (evalLoop net batches a).total := by
  intro batches
  induction batches with
  | nil => intro a ha; exact ha
  | cons b bs ih =>
    intro a ha
    show (evalLoop net bs (evalBatch net a b)).correct ≤ _
    apply ih
    calc (evalBatch net a b).correct
        ≤ a.correct + b.length := evalBatch_correct_le net a b
      _ ≤ a.total + b.length := Nat.add_le_add_right ha _
      _ = (evalBatch net a b).total := (evalBatch_total net a b).symm

/-- C10: after each batch, the accumulator satisfies
`0 ≤ correct ≤ total` (automatic on ℕ for the lower bound), both counters are
monotonically non-decreasing, each batch adds exactly the batch's label count
to `total`, and adds at most that much to `correct`. -/
theorem accumulator_invariants (net : String → Nat)
    (batches : List (List Sample)) :
    (∀ (a : Accumulator) (b : List Sample),
        (evalBatch net a b).total = a.total + (b.map Sample.label).length ∧
        a.correct ≤ (evalBatch net a b).correct ∧
        a.total ≤ (evalBatch net a b).total ∧
        (evalBatch net a b).correct ≤ a.correct + (b.map Sample.label).length) ∧
    (∀ n : Nat,
        (evalLoop net (batches.take n) ⟨0, 0⟩).correct ≤
          (evalLoop net (batches.take n) ⟨0, 0⟩).total) := by
  constructor
  · intro a b
    rw [List.length_map]
    refine ⟨evalBatch_total net a b, Nat.le_add_right _ _, ?_, ?_⟩
    · rw [evalBatch_total]; exact Nat.le_add_right _ _
    · exact evalBatch_correct_le net a b
  · intro n
    exact evalLoop_correct_le_total net (batches.take n) ⟨0, 0⟩ le_rfl

/-- C4: whenever `total > 0` after the loop, the reported metric equals
`correct / total` — exactly, in the rational model, hence certainly within
the spec's 1e-9 tolerance — and lies in `[0, 1]`. -/
theorem accuracy_equals_ratio_and_bounded (net : String → Nat)
    (batches : List (List Sample))
    (h : 0 < (evalLoop net batches ⟨0, 0⟩).total) :
    accuracy (evalLoop net batches ⟨0, 0⟩) =
      ((evalLoop net batches ⟨0, 0⟩).correct : ℚ) /
        ((evalLoop net batches ⟨0, 0⟩).total : ℚ) ∧
    0 ≤ accuracy (evalLoop net batches ⟨0, 0⟩) ∧
    accuracy (evalLoop net batches ⟨0, 0⟩) ≤ 1 := by
  refine ⟨rfl, by unfold accuracy; positivity, ?_⟩
  have hle : (evalLoop net batches ⟨0, 0⟩).correct ≤
      (evalLoop net batches ⟨0, 0⟩).total :=
    evalLoop_correct_le_total net batches ⟨0, 0⟩ le_rfl
  have ht : (0 : ℚ) < ((evalLoop net batches ⟨0, 0⟩).total : ℚ) := by
    exact_mod_cast h
  rw [accuracy, div_le_one ht]
  exact_mod_cast hle

/-- C4 witness: a single one-sample batch where the prediction matches the
label: `total = 1 > 0` and the accuracy is `1/1`. -/
theorem accuracy_equals_ratio_and_bounded_witness :
    0 < (evalLoop (fun _ => 0) [[⟨"a", 0⟩]] ⟨0, 0⟩).total ∧
    (accuracy (evalLoop (fun _ => 0) [[⟨"a", 0⟩]] ⟨0, 0⟩) =
        ((evalLoop (fun _ => 0) [[⟨"a", 0⟩]] ⟨0, 0⟩).correct : ℚ) /
          ((evalLoop (fun _ => 0) [[⟨"a", 0⟩]] ⟨0, 0⟩).total : ℚ) ∧
      0 ≤ accuracy (evalLoop (fun _ => 0) [[⟨"a", 0⟩]] ⟨0, 0⟩) ∧
      accuracy (evalLoop (fun _ => 0) [[⟨"a", 0⟩]] ⟨0, 0⟩) ≤ 1) :=
  ⟨by decide,
    accuracy_equals_ratio_and_bounded (fun _ => 0) [[⟨"a", 0⟩]] (by decide)⟩

/-- C3 counterexample: on an empty validation split the driver propagates the
raw division fault — the `ZeroDivisionError` from `num_correct / metric_count`
— rather than detecting the condition and reporting "no samples evaluated";
the result of the run is the division error, with an empty trace (so zero rows
and, in particular, no report of any kind). -/
theorem empty_split_division_fault_counterexample :
    runDriver (fun _ => 0) (fun _ => false) [] =
      ([], .error .divisionByZero) := rfl

/-- C3 amended: when the selected range yields zero validation samples, the
accumulator's total is 0 and zero prediction rows are written, but the driver
does not detect this: `metric = num_correct / metric_count` raises a raw
division fault, and no "no samples evaluated" condition is ever reported. -/
theorem empty_split_division_fault (net : String → Nat)
    (fails : List Sample → Bool) :
    runDriver net fails [] = ([], .error .divisionByZero) := rfl

/-- C7: running the driver twice on identical manifest-derived samples, with
the same checkpoint-determined network and the same environment, yields
identical traces (hence identical per-sample predictions and the same printed
accuracy) and identical results: with `model.eval()` and `torch.no_grad()` in
force the forward pass is a pure function of its input, so the embedded run
is deterministic. -/
theorem repeated_run_deterministic (net : String → Nat)
    (fails : List Sample → Bool) (samples : List Sample) :
    (runTwice net fails samples).1 = (runTwice net fails samples).2 := rfl

/-! Shape of the trace the loop emits. -/

theorem runLoop_events_write (net : String → Nat) (fails : List Sample → Bool) :
    ∀ (bs : List (List Sample)) (a : Accumulator),
      ∀ e ∈ (runLoop net fails bs a).1, e.isWrite = true := by
  intro bs
  induction bs with
  | nil => intro a e he; simp [runLoop] at he
  | cons b bs ih =>
    intro a e he
    cases hf : fails b with
    | true => simp [runLoop, hf] at he
    | false =>
      simp only [runLoop, hf, Bool.false_eq_true, if_false, List.mem_cons] at he
      rcases he with he | he
      · subst he; rfl
      · exact ih (evalBatch net a b) e he

theorem runLoop_events_take (net : String → Nat) (fails : List Sample → Bool) :
    ∀ (bs : List (List Sample)) (a : Accumulator),
      ∃ n, (runLoop net fails bs a).1 =
        (bs.take n).map fun b => Event.write (rowsOf net b) := by
  intro bs
  induction bs with
  | nil => intro a; exact ⟨0, rfl⟩
  | cons b bs ih =>
    intro a
    cases hf : fails b with
    | true => exact ⟨0, by simp [runLoop, hf]⟩
    | false =>
      obtain ⟨n, hn⟩ := ih (evalBatch net a b)
      exact ⟨n + 1, by simp [runLoop, hf, hn]⟩

theorem runLoop_some_events (net : String → Nat) (fails : List Sample → Bool) :
    ∀ (bs : List (List Sample)) (a a' : Accumulator),
      (runLoop net fails bs a).2 = some a' →
      (runLoop net fails bs a).1 = bs.map fun b => Event.write (rowsOf net b) := by
  intro bs
  induction bs with
  | nil => intro a a' _; rfl
  | cons b bs ih =>
    intro a a' h
    cases hf : fails b with
    | true => simp [runLoop, hf] at h
    | false =>
      simp only [runLoop, hf, Bool.false_eq_true, if_false] at h ⊢
      rw [List.map_cons]
      exact congrArg _ (ih (evalBatch net a b) a' h)

theorem runLoop_no_failure (net : String → Nat) :
    ∀ (bs : List (List Sample)) (a : Accumulator),
      runLoop net (fun _ => false) bs a =
        ((bs.map fun b => Event.write (rowsOf net b)), some (evalLoop net bs a)) := by
  intro bs
  induction bs with
  | nil => intro a; rfl
  | cons b bs ih =>
    intro a
    simp only [runLoop, if_false, Bool.false_eq_true, List.map_cons]
    rw [ih (evalBatch net a b)]
    rfl

/-- C5 counterexample: a run whose only batch fails is a failing exit path on
which `saver.finalize()` is never invoked — the source has no try/finally
around the loop — refuting "invokes finalize exactly once on every exit
path". -/
theorem finalize_skipped_on_failure_counterexample :
    (runDriver (fun _ => 0) (fun _ => true) ([⟨"a", 0⟩] : List Sample)).2 =
      .error .batchFailure ∧
    (runDriver (fun _ => 0) (fun _ => true)
        ([⟨"a", 0⟩] : List Sample)).1.countP Event.isFinalize = 0 :=
  ⟨rfl, rfl⟩

/-- C5 amended: the driver invokes the writer's finalize exactly once, as the
last event after all writes — but only on the successful exit path; on every
failing exit path (a batch's forward pass or write fails, or the empty-split
division fault) finalize is never invoked, so buffered predictions can be
silently lost. -/
theorem finalize_once_on_success_only (net : String → Nat)
    (fails : List Sample → Bool) (samples : List Sample) :
    (∀ u : Unit, (runDriver net fails samples).2 = .ok u →
      ∃ pre m, (runDriver net fails samples).1 =
          pre ++ [Event.printMetric m, Event.finalize] ∧
        (∀ e ∈ pre, e.isWrite = true) ∧
        (runDriver net fails samples).1.countP Event.isFinalize = 1) ∧
    (∀ er : RunError, (runDriver net fails samples).2 = .error er →
      (runDriver net fails samples).1.countP Event.isFinalize = 0) := by
  have hw := runLoop_events_write net fails (chunks 2 samples) ⟨0, 0⟩
  rcases hr : runLoop net fails (chunks 2 samples) ⟨0, 0⟩ with ⟨evs, r⟩
  rw [hr] at hw
  have hnf : evs.countP Event.isFinalize = 0 := by
    rw [List.countP_eq_zero]
    intro e he
    have := hw e he
    cases e <;> simp_all [Event.isWrite, Event.isFinalize]
  cases r with
  | none =>
    constructor
    · intro u hu
      simp [runDriver, hr] at hu
    · intro er _
      simpa [runDriver, hr] using hnf
  | some a =>
    by_cases ht : a.total = 0
    · constructor
      · intro u hu
        simp [runDriver, hr, ht] at hu
      · intro er _
        simpa [runDriver, hr, ht] using hnf
    · constructor
      · intro u _
        refine ⟨evs, accuracy a, by simp [runDriver, hr, ht], hw, ?_⟩
        simp [runDriver, hr, ht, List.countP_append, List.countP_cons,
          Event.isFinalize, hnf]
      · intro er herr
        simp [runDriver, hr, ht] at herr

/-- C5 witness: a successful one-sample run calls finalize exactly once, after
the writes and the metric print. -/
theorem finalize_once_on_success_only_witness :
    (runDriver (fun _ => 0) (fun _ => false) ([⟨"a", 0⟩] : List Sample)).2 =
      .ok () ∧
    (∃ pre m, (runDriver (fun _ => 0) (fun _ => false)
          ([⟨"a", 0⟩] : List Sample)).1 =
        pre ++ [Event.printMetric m, Event.finalize] ∧
      (∀ e ∈ pre, e.isWrite = true) ∧
      (runDriver (fun _ => 0) (fun _ => false)
          ([⟨"a", 0⟩] : List Sample)).1.countP Event.isFinalize = 1) :=
  ⟨rfl,
    (finalize_once_on_success_only (fun _ => 0) (fun _ => false)
      ([⟨"a", 0⟩] : List Sample)).1 () rfl⟩

/-- C8: on every failing run the trace contains no metric print — the run
halts before the accuracy line is emitted — and the trace consists exactly of
the write events of the batches completed before the failure, in order: rows
already handed to the writer stay there, nothing is rolled back. -/
theorem fatal_error_halts_before_print (net : String → Nat)
    (fails : List Sample → Bool) (samples : List Sample) (er : RunError)
    (herr : (runDriver net fails samples).2 = .error er) :
    (runDriver net fails samples).1.countP Event.isPrint = 0 ∧
    ∃ n, (runDriver net fails samples).1 =
      ((chunks 2 samples).take n).map fun b => Event.write (rowsOf net b) := by
  have hw := runLoop_events_write net fails (chunks 2 samples) ⟨0, 0⟩
  have htake := runLoop_events_take net fails (chunks 2 samples) ⟨0, 0⟩
  rcases hr : runLoop net fails (chunks 2 samples) ⟨0, 0⟩ with ⟨evs, r⟩
  rw [hr] at hw htake
  have hnp : evs.countP Event.isPrint = 0 := by
    rw [List.countP_eq_zero]
    intro e he
    have := hw e he
    cases e <;> simp_all [Event.isWrite, Event.isPrint]
  cases r with
  | none =>
    constructor
    · simpa [runDriver, hr] using hnp
    · simpa [runDriver, hr] using htake
  | some a =>
    by_cases ht : a.total = 0
    · constructor
      · simpa [runDriver, hr, ht] using hnp
      · simpa [runDriver, hr, ht] using htake
    · simp [runDriver, hr, ht] at herr

/-- C8 witness: with three samples (batches of 2 then 1) and the second batch
failing, the first batch's rows are in the trace, no metric line is, and the
result is the batch failure. -/
theorem fatal_error_halts_before_print_witness :
    (runDriver (fun _ => 0) (fun b => b.length == 1)
        ([⟨"a", 0⟩, ⟨"b", 0⟩, ⟨"c", 0⟩] : List Sample)).2 =
      .error .batchFailure ∧
    ((runDriver (fun _ => 0) (fun b => b.length == 1)
        ([⟨"a", 0⟩, ⟨"b", 0⟩, ⟨"c", 0⟩] : List Sample)).1.countP
          Event.isPrint = 0 ∧
      ∃ n, (runDriver (fun _ => 0) (fun b => b.length == 1)
          ([⟨"a", 0⟩, ⟨"b", 0⟩, ⟨"c", 0⟩] : List Sample)).1 =
        ((chunks 2 ([⟨"a", 0⟩, ⟨"b", 0⟩, ⟨"c", 0⟩] : List Sample)).take n).map
          fun b => Event.write (rowsOf (fun _ => 0) b)) :=
  ⟨rfl,
    fatal_error_halts_before_print (fun _ => 0) (fun b => b.length == 1)
      ([⟨"a", 0⟩, ⟨"b", 0⟩, ⟨"c", 0⟩] : List Sample) .batchFailure rfl⟩

/-! Manifest parsing. -/

theorem sampleAt_eq_none (d : JValue) (i : Nat) :
    sampleAt d i = none ↔ (getUrl d i = none ∨ getText d i = none) := by
  cases hu : getUrl d i <;> cases ht : getText d i <;>
    simp [sampleAt, hu, ht]

theorem buildSamples_eq_none (d : JValue) :
    ∀ is : List Nat,
      buildSamples d is = none ↔ ∃ i ∈ is, sampleAt d i = none := by
  intro is
  induction is with
  | nil => simp [buildSamples]
  | cons i is ih =>
    cases hs : sampleAt d i with
    | none =>
      simp only [buildSamples, hs, List.mem_cons]
      constructor
      · intro _; exact ⟨i, Or.inl rfl, hs⟩
      · intro _; trivial
    | some s0 =>
      cases hb : buildSamples d is with
      | none =>
        simp only [buildSamples, hs, hb, List.mem_cons]
        constructor
        · intro _
          obtain ⟨j, hj, hjs⟩ := ih.mp hb
          exact ⟨j, Or.inr hj, hjs⟩
        · intro _; trivial
      | some rest =>
        simp only [buildSamples, hs, hb, List.mem_cons]
        constructor
        · intro h; exact absurd h (by simp)
        · rintro ⟨j, hj | hj, hjs⟩
          · rw [hj, hs] at hjs; exact absurd hjs (by simp)
          · have hn := ih.mpr ⟨j, hj, hjs⟩
            rw [hb] at hn
            exact absurd hn (by simp)

/-- C9: parsing fails with a `ManifestError` exactly when the manifest file is
missing, is not valid structured data, or the access chain for an expected
field — `resource.content.url` or `resource.note.text` — fails to produce the
field for some selected index 21–29. -/
theorem manifest_error_iff (m : ManifestInput) :
    (∃ e, parseManifest m = .error e) ↔
      (m = .missing ∨ m = .notJson ∨
        ∃ d, m = .json d ∧ ∃ i ∈ selIdx,
          (getUrl d i = none ∨ getText d i = none)) := by
  cases m with
  | missing =>
    constructor
    · intro _; exact Or.inl rfl
    · intro _; exact ⟨.fileMissing, rfl⟩
  | notJson =>
    constructor
    · intro _; exact Or.inr (Or.inl rfl)
    · intro _; exact ⟨.invalidData, rfl⟩
  | json d =>
    have hiff : buildSamples d selIdx = none ↔
        ∃ i ∈ selIdx, (getUrl d i = none ∨ getText d i = none) := by
      rw [buildSamples_eq_none]
      constructor
      · rintro ⟨i, hi, hs⟩; exact ⟨i, hi, (sampleAt_eq_none d i).mp hs⟩
      · rintro ⟨i, hi, hs⟩; exact ⟨i, hi, (sampleAt_eq_none d i).mpr hs⟩
    constructor
    · rintro ⟨e, he⟩
      refine Or.inr (Or.inr ⟨d, rfl, hiff.mp ?_⟩)
      cases hb : buildSamples d selIdx with
      | none => rfl
      | some s => simp [parseManifest, hb] at he
    · rintro (h | h | ⟨d', hd, hcond⟩)
      · exact absurd h (by simp)
      · exact absurd h (by simp)
      · have hdd : d = d' := by injection hd
        subst hdd
        have hb : buildSamples d selIdx = none := hiff.mpr hcond
        exact ⟨.fieldAbsent, by simp [parseManifest, hb]⟩

/-! Validation-split construction and persisted rows. -/

theorem buildSamples_eq_some (d : JValue) :
    ∀ (is : List Nat) (s : List Sample), buildSamples d is = some s →
      s.length = is.length ∧
      ∀ (j i : Nat), is[j]? = some i → sampleAt d i = s[j]? := by
  intro is
  induction is with
  | nil =>
    intro s hs
    simp only [buildSamples, Option.some.injEq] at hs
    subst hs
    refine ⟨rfl, ?_⟩
    intro j i h
    simp at h
  | cons i0 is ih =>
    intro s hs
    cases h0 : sampleAt d i0 with
    | none => simp [buildSamples, h0] at hs
    | some s0 =>
      cases hb : buildSamples d is with
      | none => simp [buildSamples, h0, hb] at hs
      | some rest =>
        simp only [buildSamples, h0, hb, Option.some.injEq] at hs
        subst hs
        obtain ⟨hlen, hidx⟩ := ih rest hb
        refine ⟨by simp [hlen], ?_⟩
        intro j i hj
        cases j with
        | zero =>
          simp only [List.getElem?_cons_zero, Option.some.injEq] at hj
          subst hj
          simpa using h0
        | succ j =>
          simp only [List.getElem?_cons_succ] at hj ⊢
          exact hidx j i hj

theorem flushedRows_append (l1 l2 : List Event) :
    flushedRows (l1 ++ l2) = flushedRows l1 ++ flushedRows l2 := by
  simp [flushedRows]

theorem flushedRows_writes (net : String → Nat) (bs : List (List Sample)) :
    flushedRows (bs.map fun b => Event.write (rowsOf net b)) =
      bs.flatten.map fun s => (s.img, net s.img) := by
  simp only [flushedRows, rowsOf, List.map_map, List.map_flatten]
  rfl

theorem flushedRows_success (net : String → Nat) (samples : List Sample) :
    flushedRows (runDriver net (fun _ => false) samples).1 =
      samples.map fun s => (s.img, net s.img) := by
  have hnr := runLoop_no_failure net (chunks 2 samples) ⟨0, 0⟩
  have hkey := flushedRows_writes net (chunks 2 samples)
  rw [chunks_flatten 2 (by decide)] at hkey
  simp only [runDriver, hnr]
  by_cases ht : (evalLoop net (chunks 2 samples) ⟨0, 0⟩).total = 0
  · rw [if_pos ht]
    exact hkey
  · rw [if_neg ht]
    show flushedRows (_ ++ [Event.printMetric _, Event.finalize]) = _
    rw [flushedRows_append, hkey]
    simp [flushedRows]

/-- C6: for every manifest whose `entry` array has at least 30 elements and
whose selected entries parse, the constructed validation list is exactly the
samples derived from entries 21 through 29 inclusive, in manifest order, of
length exactly 9; and a successful run persists exactly one output row per
validation sample, in that same order. -/
theorem validation_split_selection (d : JValue) (es : List JValue)
    (samples : List Sample) (net : String → Nat)
    (_hentry : jget d "entry" = some (JValue.arr es))
    (_hlen : 30 ≤ es.length)
    (hok : parseManifest (.json d) = .ok samples) :
    samples.length = 9 ∧
    (∀ j, j < 9 → sampleAt d (21 + j) = samples[j]?) ∧
    flushedRows (runDriver net (fun _ => false) samples).1 =
      samples.map fun s => (s.img, net s.img) := by
  have hb : buildSamples d selIdx = some samples := by
    cases hb : buildSamples d selIdx with
    | none => simp [parseManifest, hb] at hok
    | some s =>
      have hss : s = samples := by
        simpa [parseManifest, hb] using hok
      rw [hss]
  obtain ⟨hlen9, hidx⟩ := buildSamples_eq_some d selIdx samples hb
  refine ⟨by simpa [selIdx] using hlen9, ?_, flushedRows_success net samples⟩
  intro j hj
  have hsel : selIdx[j]? = some (21 + j) := by
    interval_cases j <;> rfl
  exact hidx j (21 + j) hsel

/-- C6 witness: the concrete 30-entry manifest `manifestJ` (21 unused entries,
then 9 well-formed ones); parsing succeeds and all three conclusions hold. -/
theorem validation_split_selection_witness :
    jget manifestJ "entry" =
      some (.arr (List.replicate 21 .null ++ List.replicate 9 entryJ)) ∧
    30 ≤ (List.replicate 21 JValue.null ++ List.replicate 9 entryJ).length ∧
    parseManifest (.json manifestJ) =
      .ok (List.replicate 9 ⟨pathJoin dirpath "a.nii", 0⟩) ∧
    ((List.replicate 9 (⟨pathJoin dirpath "a.nii", 0⟩ : Sample)).length = 9 ∧
      (∀ j, j < 9 → sampleAt manifestJ (21 + j) =
        (List.replicate 9 (⟨pathJoin dirpath "a.nii", 0⟩ : Sample))[j]?) ∧
      flushedRows (runDriver (fun _ => 0) (fun _ => false)
          (List.replicate 9 (⟨pathJoin dirpath "a.nii", 0⟩ : Sample))).1 =
        (List.replicate 9 (⟨pathJoin dirpath "a.nii", 0⟩ : Sample)).map
          fun s => (s.img, 0)) :=
  ⟨rfl, by decide, rfl,
    validation_split_selection manifestJ
      (List.replicate 21 JValue.null ++ List.replicate 9 entryJ)
      (List.replicate 9 ⟨pathJoin dirpath "a.nii", 0⟩) (fun _ => 0)
      rfl (by decide) rfl⟩

end DensenetEval
